import Mathlib

/-!
# Verification of the ViTaL `Clicker` (fbrs interactive-segmentation click simulator)

Shallow embedding of `src/XMem/inference/interact/fbrs/inference/clicker.py`.

Modelling choices:
* 2D numpy arrays become `BGrid` / `QGrid` / `IGrid`: an explicit shape `(H, W)`
  together with a total valuation function.  Only indices `i < H`, `j < W` are
  meaningful; numpy elementwise binary operations are modelled with numpy's 2D
  broadcasting rules (`bcastDim` / `bidx`), since the source performs no shape
  validation of its own.
* `scipy.ndimage.distance_transform_edt` is an external collaborator.  The
  development is parametric in a distance-field function `Edt`;
  `EdtNonneg` records the one fact used about it (distances are nonnegative).
  `sqedt`, the exact squared Euclidean distance transform, is a concrete
  instance used for closed evaluations: squaring is a strictly monotone
  bijection on nonnegative reals, so every comparison (`>`), every
  equality-with-maximum test, and every multiplication by a 0/1 mask performed
  by the source on `sqrt`-valued scipy outputs gives the same result on the
  squared values; floats are modelled by exact rationals.
* Python exceptions become the `PyErr` error type of an `Except` result:
  `assertionFailed` (the `assert self.gt_mask is not None`),
  `valueError` (numpy broadcasting failure inside mask algebra),
  `indexError` (`coords_y[0]` on an empty selection, and `list.pop()` on an
  empty list).
* In-place mutation of `self` becomes explicit state passing on `Clicker`.
-/

/-- `Click = namedtuple("Click", ["is_positive", "coords"])`. -/
structure Click where
  is_positive : Bool
  coords : Nat × Nat
deriving DecidableEq, Repr

/-- Boolean 2D array: shape plus total valuation. -/
structure BGrid where
  H : Nat
  W : Nat
  val : Nat → Nat → Bool

/-- Rational-valued 2D array (models the float arrays). -/
structure QGrid where
  H : Nat
  W : Nat
  val : Nat → Nat → Rat

/-- Integer-valued 2D array (models the label map passed as `gt_mask`). -/
structure IGrid where
  H : Nat
  W : Nat
  val : Nat → Nat → Int

/-- All cells of an `H × W` grid in row-major (numpy C-order) order. -/
def cells (H W : Nat) : List (Nat × Nat) :=
  (List.range H).flatMap (fun i => (List.range W).map (fun j => (i, j)))

/-- Strict row-major order on coordinates: smaller row first, then smaller column. -/
def rmLt (p q : Nat × Nat) : Prop :=
  p.1 < q.1 ∨ (p.1 = q.1 ∧ p.2 < q.2)

instance (p q : Nat × Nat) : Decidable (rmLt p q) := by
  unfold rmLt; infer_instance

/-- First cell in row-major order satisfying `p`; models
`np.where(...)` followed by taking index 0 of both coordinate arrays. -/
def firstCell (H W : Nat) (p : Nat → Nat → Bool) : Option (Nat × Nat) :=
  (cells H W).find? (fun c => p c.1 c.2)

/-- `np.max` over a grid, as a left fold.  `numpy` raises on an empty array;
all uses below are guarded by nonemptiness, and all values involved are
nonnegative, so the `0` initial accumulator never exceeds the true maximum. -/
def gridMax (g : QGrid) : Rat :=
  ((cells g.H g.W).map (fun c => g.val c.1 c.2)).foldl max 0

/-- numpy broadcasting of one dimension pair: equal, or one of them is `1`. -/
def bcastDim (a b : Nat) : Option Nat :=
  if a = b then some a else if a = 1 then some b else if b = 1 then some a else none

/-- Index into a dimension of extent `n` under broadcasting. -/
def bidx (n i : Nat) : Nat :=
  if n = 1 then 0 else i

/-- `np.logical_not`. -/
def logical_not (x : BGrid) : BGrid :=
  ⟨x.H, x.W, fun i j => !(x.val i j)⟩

/-- `np.logical_and` with 2D broadcasting; `none` models the numpy
`ValueError` for non-broadcastable operands. -/
def logical_and (x y : BGrid) : Option BGrid :=
  match bcastDim x.H y.H, bcastDim x.W y.W with
  | some H, some W =>
      some ⟨H, W, fun i j =>
        x.val (bidx x.H i) (bidx x.W j) && y.val (bidx y.H i) (bidx y.W j)⟩
  | _, _ => none

/-- `np.pad(m, ((1,1),(1,1)), "constant")`: one-pixel false border. -/
def pad1 (x : BGrid) : BGrid :=
  ⟨x.H + 2, x.W + 2, fun i j =>
    if 1 ≤ i ∧ i ≤ x.H ∧ 1 ≤ j ∧ j ≤ x.W then x.val (i - 1) (j - 1) else false⟩

/-- The `[1:-1, 1:-1]` crop undoing `pad1`. -/
def crop1 (x : QGrid) : QGrid :=
  ⟨x.H - 2, x.W - 2, fun i j => x.val (i + 1) (j + 1)⟩

/-- The external Euclidean distance-transform collaborator: given the shape
and valuation of a boolean image, a rational value per pixel. -/
def Edt : Type :=
  Nat → Nat → (Nat → Nat → Bool) → Nat → Nat → Rat

/-- The one contract fact used about the distance field: values are
nonnegative (they model Euclidean distances). -/
def EdtNonneg (edt : Edt) : Prop :=
  ∀ H W m i j, 0 ≤ edt H W m i j

/-- Apply the distance-field collaborator to a boolean grid. -/
def applyEdt (edt : Edt) (x : BGrid) : QGrid :=
  ⟨x.H, x.W, fun i j => edt x.H x.W x.val i j⟩

/-- Elementwise product of a float grid with a boolean grid
(`fn_mask_dt * self.not_clicked_map`), with numpy broadcasting.  The boolean
is promoted to `1` / `0`; since `v * 1 = v` and `v * 0 = 0` exactly (the
values are nonnegative, finite distances), the product is written as the
equivalent select, which the kernel can evaluate on rationals. -/
def mulMask (x : QGrid) (m : BGrid) : Option QGrid :=
  match bcastDim x.H m.H, bcastDim x.W m.W with
  | some H, some W =>
      some ⟨H, W, fun i j =>
        if m.val (bidx m.H i) (bidx m.W j) then x.val (bidx x.H i) (bidx x.W j)
        else 0⟩
  | _, _ => none

/-- Exact squared Euclidean distance transform: for a true pixel, the minimum
squared distance to a false pixel (a term above every candidate when no false
pixel exists); `0` for a false pixel.  A faithful stand-in for scipy's
`distance_transform_edt`: both maps are related by the strictly monotone
square root, so every comparison the source performs is unchanged. -/
def sqedt : Edt := fun H W m i j =>
  if m i j then
    (((cells H W).filter (fun c => !(m c.1 c.2))).map
        (fun c => ((((i : Int) - (c.1 : Int)) ^ 2 + ((j : Int) - (c.2 : Int)) ^ 2 : Int) : Rat))).foldl
      min (((H + W + 2) ^ 2 : Nat) : Rat)
  else 0

/-- Python exceptions raised by the source. -/
inductive PyErr where
  /-- `assert self.gt_mask is not None` failing. -/
  | assertionFailed : PyErr
  /-- numpy `ValueError` from non-broadcastable mask algebra. -/
  | valueError : PyErr
  /-- `IndexError`: `coords_y[0]` of an empty selection, or `pop()` on `[]`. -/
  | indexError : PyErr
deriving DecidableEq, Repr

/-- The ground-truth data computed in `__init__` when `gt_mask` is given:
`self.gt_mask = gt_mask == 1` and `self.not_ignore_mask = gt_mask != ignore_label`. -/
structure GtData where
  gt_mask : BGrid
  not_ignore_mask : BGrid

/-- The `Clicker` object state.  When `gt` is `none` the Python object has no
`not_clicked_map` attribute; here the field holds an unused placeholder and
every operation guards on `gt` exactly where the source tests
`self.gt_mask is not None`. -/
structure Clicker where
  gt : Option GtData
  not_clicked_map : BGrid
  clicks_list : List Click
  num_pos_clicks : Nat
  num_neg_clicks : Nat

/-- Set one pixel of a boolean grid to `false` (`map[y, x] = False`). -/
def setPix (m : BGrid) (p : Nat × Nat) (b : Bool) : BGrid :=
  ⟨m.H, m.W, fun i j => if i = p.1 ∧ j = p.2 then b else m.val i j⟩

/-- `Clicker.add_click`. -/
def add_click (s : Clicker) (c : Click) : Clicker :=
  { s with
    num_pos_clicks := if c.is_positive then s.num_pos_clicks + 1 else s.num_pos_clicks
    num_neg_clicks := if c.is_positive then s.num_neg_clicks else s.num_neg_clicks + 1
    clicks_list := s.clicks_list ++ [c]
    not_clicked_map :=
      match s.gt with
      | some _ => setPix s.not_clicked_map c.coords false
      | none => s.not_clicked_map }

/-- `Clicker._remove_last_click`; `list.pop()` on an empty list raises
`IndexError` before any field is mutated. -/
def remove_last_click (s : Clicker) : Except PyErr Clicker :=
  match s.clicks_list.getLast? with
  | none => .error .indexError
  | some c =>
      .ok { s with
        clicks_list := s.clicks_list.dropLast
        num_pos_clicks := if c.is_positive then s.num_pos_clicks - 1 else s.num_pos_clicks
        num_neg_clicks := if c.is_positive then s.num_neg_clicks else s.num_neg_clicks - 1
        not_clicked_map :=
          match s.gt with
          | some _ => setPix s.not_clicked_map c.coords true
          | none => s.not_clicked_map }

/-- `np.ones_like(g, dtype=np.bool)`. -/
def onesLike (g : BGrid) : BGrid :=
  ⟨g.H, g.W, fun _ _ => true⟩

/-- `Clicker.reset_clicks`. -/
def reset_clicks (s : Clicker) : Clicker :=
  { s with
    not_clicked_map :=
      match s.gt with
      | some g => onesLike g.gt_mask
      | none => s.not_clicked_map
    num_pos_clicks := 0
    num_neg_clicks := 0
    clicks_list := [] }

/-- `Clicker.__init__(gt_mask, init_clicks, ignore_label)`. -/
def mkClicker (gt_mask : Option IGrid) (init_clicks : List Click) (ignore_label : Int) :
    Clicker :=
  let gtd : Option GtData :=
    gt_mask.map (fun g =>
      ⟨⟨g.H, g.W, fun i j => decide (g.val i j = 1)⟩,
       ⟨g.H, g.W, fun i j => decide (g.val i j ≠ ignore_label)⟩⟩)
  let base : Clicker := reset_clicks ⟨gtd, ⟨0, 0, fun _ _ => true⟩, [], 0, 0⟩
  init_clicks.foldl add_click base

/-- `Clicker.get_clicks(clicks_limit)`: `self.clicks_list[:clicks_limit]`
(`none` models the Python default `None`; the claims consider only
nonnegative limits, so `Nat` slicing is `List.take`). -/
def get_clicks (s : Clicker) (clicks_limit : Option Nat) : List Click :=
  match clicks_limit with
  | none => s.clicks_list
  | some k => s.clicks_list.take k

/-- `Clicker.get_state`: a deep copy of the click list (value semantics are
implicit in the functional embedding). -/
def get_state (s : Clicker) : List Click :=
  s.clicks_list

/-- `Clicker.set_state`. -/
def set_state (s : Clicker) (st : List Click) : Clicker :=
  st.foldl add_click (reset_clicks s)

/-- `Clicker.__len__`. -/
def clickerLen (s : Clicker) : Nat :=
  s.clicks_list.length

/-- `Clicker._get_click(pred_mask)` (the call sites use the default
`padding=True`, which is the path modelled).  Steps, in source order:
the two error masks, padding, distance transform, crop, masking by
`not_clicked_map`, maxima, strict comparison, and the row-major-first
pixel achieving the chosen maximum. -/
def get_click (edt : Edt) (g : GtData) (not_clicked : BGrid) (pred_mask : BGrid) :
    Except PyErr Click :=
  match logical_and g.gt_mask (logical_not pred_mask) with
  | none => .error .valueError
  | some m1 =>
    match logical_and m1 g.not_ignore_mask with
    | none => .error .valueError
    | some fn_mask =>
      match logical_and (logical_not g.gt_mask) pred_mask with
      | none => .error .valueError
      | some m2 =>
        match logical_and m2 g.not_ignore_mask with
        | none => .error .valueError
        | some fp_mask =>
          let fn_mask_dt0 := crop1 (applyEdt edt (pad1 fn_mask))
          let fp_mask_dt0 := crop1 (applyEdt edt (pad1 fp_mask))
          match mulMask fn_mask_dt0 not_clicked with
          | none => .error .valueError
          | some fn_mask_dt =>
            match mulMask fp_mask_dt0 not_clicked with
            | none => .error .valueError
            | some fp_mask_dt =>
              let fn_max_dist := gridMax fn_mask_dt
              let fp_max_dist := gridMax fp_mask_dt
              let is_pos : Bool := decide (fn_max_dist > fp_max_dist)
              let chosen := if is_pos then fn_mask_dt else fp_mask_dt
              let chosen_max := if is_pos then fn_max_dist else fp_max_dist
              match firstCell chosen.H chosen.W
                  (fun i j => decide (chosen.val i j = chosen_max)) with
              | none => .error .indexError
              | some yx => .ok ⟨is_pos, yx⟩

/-- `Clicker.make_next_click(pred_mask)`. -/
def make_next_click (edt : Edt) (s : Clicker) (pred_mask : BGrid) :
    Except PyErr Clicker :=
  match s.gt with
  | none => .error .assertionFailed
  | some g =>
    match get_click edt g s.not_clicked_map pred_mask with
    | .error e => .error e
    | .ok click => .ok (add_click s click)

/-! ## Shape-matched forms of the distance pipeline

When the predicted mask has exactly the ground-truth shape (the case all
claims except C3 are about), broadcasting is the identity on the meaningful
index range and the pipeline computes the maps below.  `get_click_shape_eq`
relates the faithful definition to these forms. -/

/-- The false-negative error mask at equal shapes:
`gt ∧ ¬pred ∧ valid_region`. -/
def fn_err_mask (g : GtData) (pred_mask : BGrid) : BGrid :=
  ⟨g.gt_mask.H, g.gt_mask.W, fun i j =>
    (g.gt_mask.val i j && !(pred_mask.val i j)) && g.not_ignore_mask.val i j⟩

/-- The false-positive error mask at equal shapes:
`¬gt ∧ pred ∧ valid_region`. -/
def fp_err_mask (g : GtData) (pred_mask : BGrid) : BGrid :=
  ⟨g.gt_mask.H, g.gt_mask.W, fun i j =>
    ((!(g.gt_mask.val i j)) && pred_mask.val i j) && g.not_ignore_mask.val i j⟩

/-- The masked false-negative distance map at equal shapes: pad, distance
transform, crop, then zero out already-clicked pixels. -/
def fn_masked_dt (edt : Edt) (g : GtData) (nc pred_mask : BGrid) : QGrid :=
  ⟨g.gt_mask.H, g.gt_mask.W, fun i j =>
    if nc.val i j then (crop1 (applyEdt edt (pad1 (fn_err_mask g pred_mask)))).val i j
    else 0⟩

/-- The masked false-positive distance map at equal shapes. -/
def fp_masked_dt (edt : Edt) (g : GtData) (nc pred_mask : BGrid) : QGrid :=
  ⟨g.gt_mask.H, g.gt_mask.W, fun i j =>
    if nc.val i j then (crop1 (applyEdt edt (pad1 (fp_err_mask g pred_mask)))).val i j
    else 0⟩

/-- All auxiliary grids share the ground-truth shape (guaranteed for every
Clicker actually constructed with a ground-truth mask) and the predicted
mask matches it. -/
def ShapeOK (g : GtData) (nc pred_mask : BGrid) : Prop :=
  g.not_ignore_mask.H = g.gt_mask.H ∧ g.not_ignore_mask.W = g.gt_mask.W ∧
  nc.H = g.gt_mask.H ∧ nc.W = g.gt_mask.W ∧
  pred_mask.H = g.gt_mask.H ∧ pred_mask.W = g.gt_mask.W

/-- `p` is the row-major-first position attaining the maximum of `q`:
it is in bounds, attains `gridMax q`, and no strictly earlier in-bounds
pixel (smaller row, or same row and smaller column) attains it. -/
def firstMaxAt (q : QGrid) (p : Nat × Nat) : Prop :=
  p.1 < q.H ∧ p.2 < q.W ∧ q.val p.1 p.2 = gridMax q ∧
  ∀ b : Nat × Nat, b.1 < q.H → b.2 < q.W → rmLt b p → q.val b.1 b.2 ≠ gridMax q

/-! ## Basic lemmas: row-major cell enumeration, first match, fold maxima -/

theorem mem_cells {H W : Nat} {p : Nat × Nat} :
    p ∈ cells H W ↔ p.1 < H ∧ p.2 < W := by
  cases p with
  | mk a b =>
    simp only [cells, List.mem_flatMap, List.mem_map, List.mem_range]
    constructor
    · rintro ⟨i, hi, j, hj, h⟩
      cases h
      exact ⟨hi, hj⟩
    · rintro ⟨ha, hb⟩
      exact ⟨a, ha, b, hb, rfl⟩

theorem rmLt_irrefl (p : Nat × Nat) : ¬ rmLt p p := by
  simp [rmLt]

theorem rmLt_asymm {p q : Nat × Nat} (h1 : rmLt p q) (h2 : rmLt q p) : False := by
  rcases h1 with h1 | ⟨h1, h1'⟩ <;> rcases h2 with h2 | ⟨h2, h2'⟩ <;> omega

theorem cells_pairwise (H W : Nat) : (cells H W).Pairwise rmLt := by
  unfold cells
  refine List.pairwise_flatMap.mpr ⟨?_, ?_⟩
  · intro i _
    refine List.pairwise_map.mpr ?_
    refine List.Pairwise.imp ?_ (List.pairwise_lt_range W)
    intro a b hab
    exact Or.inr ⟨rfl, hab⟩
  · refine List.Pairwise.imp ?_ (List.pairwise_lt_range H)
    intro a b hab x hx y hy
    simp only [List.mem_map, List.mem_range] at hx hy
    obtain ⟨j1, _, rfl⟩ := hx
    obtain ⟨j2, _, rfl⟩ := hy
    exact Or.inl hab

theorem find?_first {l : List (Nat × Nat)} (hpw : l.Pairwise rmLt)
    {p : Nat × Nat → Bool} {a : Nat × Nat}
    (h : l.find? p = some a) :
    p a = true ∧ ∀ b ∈ l, rmLt b a → p b = false := by
  induction l with
  | nil => simp at h
  | cons c t ih =>
    rw [List.find?_cons] at h
    rcases hc : p c with hfalse | htrue
    · rw [hc] at h
      simp only [cond_false] at h
      obtain ⟨ha, hrest⟩ := ih (List.Pairwise.of_cons hpw) h
      refine ⟨ha, ?_⟩
      intro b hb hba
      rcases List.mem_cons.mp hb with rfl | hbt
      · exact hc
      · exact hrest b hbt hba
    · rw [hc] at h
      simp only [cond_true, Option.some.injEq] at h
      subst h
      refine ⟨hc, ?_⟩
      intro b hb hba
      rcases List.mem_cons.mp hb with rfl | hbt
      · exact absurd hba (rmLt_irrefl _)
      · exact absurd hba (fun hba => rmLt_asymm hba
          ((List.pairwise_cons.mp hpw).1 b hbt))

theorem find?_congr_mem {α : Type} {l : List α} {p q : α → Bool}
    (h : ∀ x ∈ l, p x = q x) : l.find? p = l.find? q := by
  induction l with
  | nil => rfl
  | cons c t ih =>
    rw [List.find?_cons, List.find?_cons, h c (List.mem_cons_self c t),
      ih (fun x hx => h x (List.mem_cons_of_mem c hx))]

theorem firstCell_congr {H W : Nat} {p q : Nat → Nat → Bool}
    (h : ∀ i j, i < H → j < W → p i j = q i j) :
    firstCell H W p = firstCell H W q := by
  unfold firstCell
  refine find?_congr_mem ?_
  intro x hx
  obtain ⟨h1, h2⟩ := mem_cells.mp hx
  exact h x.1 x.2 h1 h2

theorem firstCell_isSome {H W : Nat} {p : Nat → Nat → Bool}
    (h : ∃ c : Nat × Nat, c.1 < H ∧ c.2 < W ∧ p c.1 c.2 = true) :
    ∃ a, firstCell H W p = some a := by
  obtain ⟨c, h1, h2, h3⟩ := h
  have hmem : c ∈ cells H W := mem_cells.mpr ⟨h1, h2⟩
  have : ((cells H W).find? (fun c => p c.1 c.2)).isSome := by
    rw [List.find?_isSome]
    exact ⟨c, hmem, h3⟩
  exact Option.isSome_iff_exists.mp this

theorem le_foldl_max (l : List Rat) (init : Rat) :
    init ≤ l.foldl max init := by
  induction l generalizing init with
  | nil => exact le_refl _
  | cons x t ih =>
    calc init ≤ max init x := le_max_left _ _
    _ ≤ t.foldl max (max init x) := ih _

theorem mem_le_foldl_max {l : List Rat} {x : Rat} (hx : x ∈ l) (init : Rat) :
    x ≤ l.foldl max init := by
  induction l generalizing init with
  | nil => simp at hx
  | cons c t ih =>
    rcases List.mem_cons.mp hx with rfl | hxt
    · calc x ≤ max init x := le_max_right _ _
      _ ≤ t.foldl max (max init x) := le_foldl_max _ _
    · exact ih hxt _

theorem foldl_max_mem_or_init (l : List Rat) (init : Rat) :
    l.foldl max init = init ∨ l.foldl max init ∈ l := by
  induction l generalizing init with
  | nil => exact Or.inl rfl
  | cons x t ih =>
    rcases ih (max init x) with h | h
    · rcases max_cases init x with ⟨hm, _⟩ | ⟨hm, _⟩
      · simp only [List.foldl_cons]
        rw [h, hm]
        exact Or.inl rfl
      · simp only [List.foldl_cons]
        rw [h, hm]
        exact Or.inr (List.mem_cons_self _ _)
    · exact Or.inr (List.mem_cons_of_mem _ h)

theorem val_le_gridMax {g : QGrid} {i j : Nat} (hi : i < g.H) (hj : j < g.W) :
    g.val i j ≤ gridMax g := by
  unfold gridMax
  refine mem_le_foldl_max ?_ 0
  refine List.mem_map.mpr ⟨(i, j), mem_cells.mpr ⟨hi, hj⟩, rfl⟩

theorem gridMax_zero_or_attained (g : QGrid) :
    gridMax g = 0 ∨ ∃ c : Nat × Nat, c.1 < g.H ∧ c.2 < g.W ∧ g.val c.1 c.2 = gridMax g := by
  rcases foldl_max_mem_or_init ((cells g.H g.W).map (fun c => g.val c.1 c.2)) 0 with h | h
  · exact Or.inl h
  · obtain ⟨c, hc, hv⟩ := List.mem_map.mp h
    obtain ⟨h1, h2⟩ := mem_cells.mp hc
    exact Or.inr ⟨c, h1, h2, hv⟩

theorem gridMax_congr {g g' : QGrid} (hH : g.H = g'.H) (hW : g.W = g'.W)
    (h : ∀ i j, i < g.H → j < g.W → g.val i j = g'.val i j) :
    gridMax g = gridMax g' := by
  unfold gridMax
  rw [← hH, ← hW]
  congr 1
  refine List.map_congr_left ?_
  intro c hc
  obtain ⟨h1, h2⟩ := mem_cells.mp hc
  exact h c.1 c.2 h1 h2

theorem bcastDim_self (n : Nat) : bcastDim n n = some n := by
  simp [bcastDim]

theorem bidx_lt {n i : Nat} (h : i < n) : bidx n i = i := by
  unfold bidx
  split
  · omega
  · rfl

theorem pad1_congr {x y : BGrid} (hH : x.H = y.H) (hW : x.W = y.W)
    (h : ∀ i j, i < x.H → j < x.W → x.val i j = y.val i j) :
    pad1 x = pad1 y := by
  unfold pad1
  rw [hH, hW]
  congr 1
  funext i j
  rw [← hH, ← hW]
  split
  · next hc => exact h (i - 1) (j - 1) (by omega) (by omega)
  · rfl

theorem logical_and_eq {x y : BGrid} (hH : y.H = x.H) (hW : y.W = x.W) :
    logical_and x y = some ⟨x.H, x.W, fun i j =>
      x.val (bidx x.H i) (bidx x.W j) && y.val (bidx x.H i) (bidx x.W j)⟩ := by
  unfold logical_and
  rw [hH, hW, bcastDim_self, bcastDim_self]

theorem mulMask_eq {x : QGrid} {m : BGrid} (hH : m.H = x.H) (hW : m.W = x.W) :
    mulMask x m = some ⟨x.H, x.W, fun i j =>
      if m.val (bidx x.H i) (bidx x.W j) then x.val (bidx x.H i) (bidx x.W j)
      else 0⟩ := by
  unfold mulMask
  rw [hH, hW, bcastDim_self, bcastDim_self]

/-- The false-negative pipeline of `_get_click` at equal shapes: every stage
succeeds and the resulting masked distance grid agrees in bounds with
`fn_masked_dt`. -/
theorem fn_stage (edt : Edt) (g : GtData) (nc pred_mask : BGrid)
    (hs : ShapeOK g nc pred_mask) :
    ∃ (m1 fnm : BGrid) (fnd : QGrid),
      logical_and g.gt_mask (logical_not pred_mask) = some m1 ∧
      logical_and m1 g.not_ignore_mask = some fnm ∧
      mulMask (crop1 (applyEdt edt (pad1 fnm))) nc = some fnd ∧
      fnd.H = g.gt_mask.H ∧ fnd.W = g.gt_mask.W ∧
      ∀ i j, i < g.gt_mask.H → j < g.gt_mask.W →
        fnd.val i j = (fn_masked_dt edt g nc pred_mask).val i j := by
  obtain ⟨h1, h2, h3, h4, h5, h6⟩ := hs
  have E1 : ∃ m1 : BGrid, logical_and g.gt_mask (logical_not pred_mask) = some m1 ∧
      m1.H = g.gt_mask.H ∧ m1.W = g.gt_mask.W ∧
      ∀ i j, i < g.gt_mask.H → j < g.gt_mask.W →
        m1.val i j = (g.gt_mask.val i j && !(pred_mask.val i j)) := by
    refine ⟨_, logical_and_eq h5 h6, rfl, rfl, ?_⟩
    intro i j hi hj
    dsimp only [logical_not]
    rw [bidx_lt hi, bidx_lt hj]
  obtain ⟨m1, e1, hm1H, hm1W, hm1v⟩ := E1
  have E2 : ∃ fnm : BGrid, logical_and m1 g.not_ignore_mask = some fnm ∧
      fnm.H = g.gt_mask.H ∧ fnm.W = g.gt_mask.W ∧
      ∀ i j, i < g.gt_mask.H → j < g.gt_mask.W →
        fnm.val i j = (fn_err_mask g pred_mask).val i j := by
    refine ⟨_, logical_and_eq (h1.trans hm1H.symm) (h2.trans hm1W.symm), hm1H, hm1W, ?_⟩
    intro i j hi hj
    have bH : bidx m1.H i = i := by rw [hm1H]; exact bidx_lt hi
    have bW : bidx m1.W j = j := by rw [hm1W]; exact bidx_lt hj
    dsimp only [fn_err_mask]
    rw [bH, bW, hm1v i j hi hj]
  obtain ⟨fnm, e2, hfnmH, hfnmW, hfnmv⟩ := E2
  have hpad : pad1 fnm = pad1 (fn_err_mask g pred_mask) :=
    pad1_congr hfnmH hfnmW
      (fun i j hi hj => hfnmv i j (hfnmH ▸ hi) (hfnmW ▸ hj))
  have hxH : (crop1 (applyEdt edt (pad1 fnm))).H = g.gt_mask.H := by
    dsimp only [crop1, applyEdt, pad1]
    rw [hfnmH]
    omega
  have hxW : (crop1 (applyEdt edt (pad1 fnm))).W = g.gt_mask.W := by
    dsimp only [crop1, applyEdt, pad1]
    rw [hfnmW]
    omega
  refine ⟨m1, fnm, _, e1, e2, mulMask_eq (h3.trans hxH.symm) (h4.trans hxW.symm),
    hxH, hxW, ?_⟩
  intro i j hi hj
  have bH : bidx (crop1 (applyEdt edt (pad1 fnm))).H i = i := by
    rw [hxH]; exact bidx_lt hi
  have bW : bidx (crop1 (applyEdt edt (pad1 fnm))).W j = j := by
    rw [hxW]; exact bidx_lt hj
  dsimp only [fn_masked_dt]
  rw [bH, bW, hpad]

/-- The false-positive pipeline of `_get_click` at equal shapes. -/
theorem fp_stage (edt : Edt) (g : GtData) (nc pred_mask : BGrid)
    (hs : ShapeOK g nc pred_mask) :
    ∃ (m2 fpm : BGrid) (fpd : QGrid),
      logical_and (logical_not g.gt_mask) pred_mask = some m2 ∧
      logical_and m2 g.not_ignore_mask = some fpm ∧
      mulMask (crop1 (applyEdt edt (pad1 fpm))) nc = some fpd ∧
      fpd.H = g.gt_mask.H ∧ fpd.W = g.gt_mask.W ∧
      ∀ i j, i < g.gt_mask.H → j < g.gt_mask.W →
        fpd.val i j = (fp_masked_dt edt g nc pred_mask).val i j := by
  obtain ⟨h1, h2, h3, h4, h5, h6⟩ := hs
  have E1 : ∃ m2 : BGrid, logical_and (logical_not g.gt_mask) pred_mask = some m2 ∧
      m2.H = g.gt_mask.H ∧ m2.W = g.gt_mask.W ∧
      ∀ i j, i < g.gt_mask.H → j < g.gt_mask.W →
        m2.val i j = ((!(g.gt_mask.val i j)) && pred_mask.val i j) := by
    refine ⟨_, logical_and_eq h5 h6, rfl, rfl, ?_⟩
    intro i j hi hj
    dsimp only [logical_not]
    rw [bidx_lt hi, bidx_lt hj]
  obtain ⟨m2, e1, hm2H, hm2W, hm2v⟩ := E1
  have E2 : ∃ fpm : BGrid, logical_and m2 g.not_ignore_mask = some fpm ∧
      fpm.H = g.gt_mask.H ∧ fpm.W = g.gt_mask.W ∧
      ∀ i j, i < g.gt_mask.H → j < g.gt_mask.W →
        fpm.val i j = (fp_err_mask g pred_mask).val i j := by
    refine ⟨_, logical_and_eq (h1.trans hm2H.symm) (h2.trans hm2W.symm), hm2H, hm2W, ?_⟩
    intro i j hi hj
    have bH : bidx m2.H i = i := by rw [hm2H]; exact bidx_lt hi
    have bW : bidx m2.W j = j := by rw [hm2W]; exact bidx_lt hj
    dsimp only [fp_err_mask]
    rw [bH, bW, hm2v i j hi hj]
  obtain ⟨fpm, e2, hfpmH, hfpmW, hfpmv⟩ := E2
  have hpad : pad1 fpm = pad1 (fp_err_mask g pred_mask) :=
    pad1_congr hfpmH hfpmW
      (fun i j hi hj => hfpmv i j (hfpmH ▸ hi) (hfpmW ▸ hj))
  have hxH : (crop1 (applyEdt edt (pad1 fpm))).H = g.gt_mask.H := by
    dsimp only [crop1, applyEdt, pad1]
    rw [hfpmH]
    omega
  have hxW : (crop1 (applyEdt edt (pad1 fpm))).W = g.gt_mask.W := by
    dsimp only [crop1, applyEdt, pad1]
    rw [hfpmW]
    omega
  refine ⟨m2, fpm, _, e1, e2, mulMask_eq (h3.trans hxH.symm) (h4.trans hxW.symm),
    hxH, hxW, ?_⟩
  intro i j hi hj
  have bH : bidx (crop1 (applyEdt edt (pad1 fpm))).H i = i := by
    rw [hxH]; exact bidx_lt hi
  have bW : bidx (crop1 (applyEdt edt (pad1 fpm))).W j = j := by
    rw [hxW]; exact bidx_lt hj
  dsimp only [fp_masked_dt]
  rw [bH, bW, hpad]

theorem masked_val_nonneg {edt : Edt} (hne : EdtNonneg edt) (M nc : BGrid) (i j : Nat) :
    0 ≤ (if nc.val i j then (crop1 (applyEdt edt (pad1 M))).val i j else 0) := by
  split
  · exact hne _ _ _ _ _
  · exact le_refl 0

theorem firstCell_max_spec {q : QGrid} {a : Nat × Nat}
    (h : firstCell q.H q.W (fun i j => decide (q.val i j = gridMax q)) = some a) :
    firstMaxAt q a := by
  have hmem : a ∈ cells q.H q.W := List.mem_of_find?_eq_some h
  obtain ⟨h1, h2⟩ := mem_cells.mp hmem
  obtain ⟨ha, hall⟩ := find?_first (cells_pairwise q.H q.W) h
  refine ⟨h1, h2, of_decide_eq_true ha, ?_⟩
  intro b hb1 hb2 hba
  exact of_decide_eq_false (hall b (mem_cells.mpr ⟨hb1, hb2⟩) hba)

/-- Characterization of `_get_click` when the predicted mask has exactly the
ground-truth shape: the call succeeds, the click is positive exactly when the
masked false-negative maximum strictly exceeds the masked false-positive
maximum, and the coordinate is the row-major-first pixel attaining the
maximum of the chosen masked map. -/
theorem get_click_spec (edt : Edt) (hne : EdtNonneg edt) (g : GtData)
    (nc pred_mask : BGrid) (hs : ShapeOK g nc pred_mask)
    (hH : 0 < g.gt_mask.H) (hW : 0 < g.gt_mask.W) :
    ∃ c : Click,
      get_click edt g nc pred_mask = .ok c ∧
      (c.is_positive = true ↔
        gridMax (fp_masked_dt edt g nc pred_mask) <
          gridMax (fn_masked_dt edt g nc pred_mask)) ∧
      firstMaxAt
        (if c.is_positive then fn_masked_dt edt g nc pred_mask
         else fp_masked_dt edt g nc pred_mask) c.coords := by
  obtain ⟨m1, fnm, fnd, e1, e2, e3, hfndH, hfndW, hfndv⟩ := fn_stage edt g nc pred_mask hs
  obtain ⟨m2, fpm, fpd, e1', e2', e3', hfpdH, hfpdW, hfpdv⟩ := fp_stage edt g nc pred_mask hs
  have gmF : gridMax fnd = gridMax (fn_masked_dt edt g nc pred_mask) :=
    gridMax_congr hfndH hfndW (fun i j hi hj => hfndv i j (hfndH ▸ hi) (hfndW ▸ hj))
  have gmP : gridMax fpd = gridMax (fp_masked_dt edt g nc pred_mask) :=
    gridMax_congr hfpdH hfpdW (fun i j hi hj => hfpdv i j (hfpdH ▸ hi) (hfpdW ▸ hj))
  unfold get_click
  simp only [e1, e2, e1', e2', e3, e3']
  rw [gmF, gmP]
  by_cases hgt : gridMax (fp_masked_dt edt g nc pred_mask) <
      gridMax (fn_masked_dt edt g nc pred_mask)
  · have hd : decide (gridMax (fn_masked_dt edt g nc pred_mask) >
        gridMax (fp_masked_dt edt g nc pred_mask)) = true := decide_eq_true hgt
    rw [if_pos hd, if_pos hd, hd]
    have hfc : firstCell fnd.H fnd.W
        (fun i j => decide (fnd.val i j = gridMax (fn_masked_dt edt g nc pred_mask))) =
        firstCell g.gt_mask.H g.gt_mask.W
        (fun i j => decide ((fn_masked_dt edt g nc pred_mask).val i j =
          gridMax (fn_masked_dt edt g nc pred_mask))) := by
      rw [hfndH, hfndW]
      exact firstCell_congr (fun i j hi hj => by rw [hfndv i j hi hj])
    rw [hfc]
    have hex : ∃ a, firstCell g.gt_mask.H g.gt_mask.W
        (fun i j => decide ((fn_masked_dt edt g nc pred_mask).val i j =
          gridMax (fn_masked_dt edt g nc pred_mask))) = some a := by
      apply firstCell_isSome
      rcases gridMax_zero_or_attained (fn_masked_dt edt g nc pred_mask) with hz | hc
      · refine ⟨(0, 0), hH, hW, decide_eq_true ?_⟩
        have hle : (fn_masked_dt edt g nc pred_mask).val 0 0 ≤
            gridMax (fn_masked_dt edt g nc pred_mask) := val_le_gridMax hH hW
        have hge : 0 ≤ (fn_masked_dt edt g nc pred_mask).val 0 0 :=
          masked_val_nonneg hne (fn_err_mask g pred_mask) nc 0 0
        rw [hz]
        rw [hz] at hle
        exact le_antisymm hle hge
      · obtain ⟨cc, hc1, hc2, hcv⟩ := hc
        exact ⟨cc, hc1, hc2, decide_eq_true hcv⟩
    obtain ⟨a, ha⟩ := hex
    rw [ha]
    refine ⟨⟨true, a⟩, rfl, iff_of_true rfl hgt, ?_⟩
    rw [if_pos rfl]
    exact firstCell_max_spec ha
  · have hd : decide (gridMax (fn_masked_dt edt g nc pred_mask) >
        gridMax (fp_masked_dt edt g nc pred_mask)) = false := decide_eq_false hgt
    have hd' : ¬(decide (gridMax (fn_masked_dt edt g nc pred_mask) >
        gridMax (fp_masked_dt edt g nc pred_mask)) = true) := by
      rw [hd]
      exact Bool.false_ne_true
    rw [if_neg hd', if_neg hd', hd]
    have hfc : firstCell fpd.H fpd.W
        (fun i j => decide (fpd.val i j = gridMax (fp_masked_dt edt g nc pred_mask))) =
        firstCell g.gt_mask.H g.gt_mask.W
        (fun i j => decide ((fp_masked_dt edt g nc pred_mask).val i j =
          gridMax (fp_masked_dt edt g nc pred_mask))) := by
      rw [hfpdH, hfpdW]
      exact firstCell_congr (fun i j hi hj => by rw [hfpdv i j hi hj])
    rw [hfc]
    have hex : ∃ a, firstCell g.gt_mask.H g.gt_mask.W
        (fun i j => decide ((fp_masked_dt edt g nc pred_mask).val i j =
          gridMax (fp_masked_dt edt g nc pred_mask))) = some a := by
      apply firstCell_isSome
      rcases gridMax_zero_or_attained (fp_masked_dt edt g nc pred_mask) with hz | hc
      · refine ⟨(0, 0), hH, hW, decide_eq_true ?_⟩
        have hle : (fp_masked_dt edt g nc pred_mask).val 0 0 ≤
            gridMax (fp_masked_dt edt g nc pred_mask) := val_le_gridMax hH hW
        have hge : 0 ≤ (fp_masked_dt edt g nc pred_mask).val 0 0 :=
          masked_val_nonneg hne (fp_err_mask g pred_mask) nc 0 0
        rw [hz]
        rw [hz] at hle
        exact le_antisymm hle hge
      · obtain ⟨cc, hc1, hc2, hcv⟩ := hc
        exact ⟨cc, hc1, hc2, decide_eq_true hcv⟩
    obtain ⟨a, ha⟩ := hex
    rw [ha]
    refine ⟨⟨false, a⟩, rfl, iff_of_false Bool.false_ne_true hgt, ?_⟩
    rw [if_neg Bool.false_ne_true]
    exact firstCell_max_spec ha

theorem foldl_min_nonneg {l : List Rat} {init : Rat} (h0 : 0 ≤ init)
    (h : ∀ x ∈ l, 0 ≤ x) : 0 ≤ l.foldl min init := by
  induction l generalizing init with
  | nil => exact h0
  | cons x t ih =>
    refine ih (le_min h0 (h x (List.mem_cons_self x t))) ?_
    intro y hy
    exact h y (List.mem_cons_of_mem x hy)

theorem sqedt_nonneg : EdtNonneg sqedt := by
  intro H W m i j
  unfold sqedt
  split
  · refine foldl_min_nonneg (by positivity) ?_
    intro x hx
    obtain ⟨c, _, rfl⟩ := List.mem_map.mp hx
    positivity
  · exact le_refl 0

/-- **C8.** A `Clicker` constructed without a ground-truth mask fails every
`make_next_click` call with the precondition error (the source's
`assert self.gt_mask is not None`); in the `Except` embedding no successor
state is produced, so the click state is unchanged by the failed call. -/
theorem claim_C8 (edt : Edt) (s : Clicker) (pred_mask : BGrid) (hg : s.gt = none) :
    make_next_click edt s pred_mask = .error .assertionFailed := by
  unfold make_next_click
  rw [hg]

theorem claim_C8_witness :
    make_next_click sqedt (mkClicker none [] (-1)) ⟨1, 1, fun _ _ => false⟩ =
      .error .assertionFailed :=
  claim_C8 sqedt (mkClicker none [] (-1)) ⟨1, 1, fun _ _ => false⟩ rfl

/-- **C9.** `get_clicks` with no limit returns the whole click list, with
limit `0` the empty list, and with limit `k` exactly the first
`min k n` clicks in insertion order; being a pure observer in the
functional embedding, it cannot mutate the state. -/
theorem claim_C9 (s : Clicker) (k : Nat) :
    get_clicks s none = s.clicks_list ∧
    get_clicks s (some 0) = [] ∧
    (get_clicks s (some k)).length = min k s.clicks_list.length ∧
    ∀ i : Nat, i < min k s.clicks_list.length →
      (get_clicks s (some k))[i]? = s.clicks_list[i]? := by
  refine ⟨rfl, rfl, List.length_take k s.clicks_list, ?_⟩
  intro i hi
  have hik : i < k := lt_of_lt_of_le hi (min_le_left _ _)
  unfold get_clicks
  rw [List.getElem?_take]
  simp [hik]

def w9s : Clicker :=
  ⟨none, ⟨0, 0, fun _ _ => true⟩,
    [⟨true, (0, 0)⟩, ⟨false, (1, 2)⟩, ⟨true, (3, 4)⟩, ⟨false, (5, 6)⟩, ⟨true, (7, 8)⟩],
    3, 2⟩

theorem claim_C9_witness :
    get_clicks w9s none = w9s.clicks_list ∧
    get_clicks w9s (some 0) = [] ∧
    (get_clicks w9s (some 2)).length = min 2 w9s.clicks_list.length ∧
    ∀ i : Nat, i < min 2 w9s.clicks_list.length →
      (get_clicks w9s (some 2))[i]? = w9s.clicks_list[i]? :=
  claim_C9 w9s 2

/-- **C3 (amended).** `make_next_click` performs no shape validation of its
own: a predicted mask whose shape is not numpy-broadcast-compatible with the
ground-truth shape fails *inside* the mask algebra with the numpy
`ValueError`, not before it; a broadcast-compatible mismatched mask is
silently broadcast (see the counterexample). -/
theorem claim_C3_amended (edt : Edt) (s : Clicker) (g : GtData) (pred_mask : BGrid)
    (hg : s.gt = some g)
    (hbad : bcastDim g.gt_mask.H pred_mask.H = none ∨
      bcastDim g.gt_mask.W pred_mask.W = none) :
    make_next_click edt s pred_mask = .error .valueError := by
  have hand : logical_and g.gt_mask (logical_not pred_mask) = none := by
    have hH' : bcastDim g.gt_mask.H (logical_not pred_mask).H =
        bcastDim g.gt_mask.H pred_mask.H := rfl
    have hW' : bcastDim g.gt_mask.W (logical_not pred_mask).W =
        bcastDim g.gt_mask.W pred_mask.W := rfl
    unfold logical_and
    rcases hbad with hb | hb
    · rw [hH', hb]
    · rcases hh : bcastDim g.gt_mask.H (logical_not pred_mask).H with _ | h
      · rfl
      · rw [hW', hb]
  simp only [make_next_click, hg, get_click, hand]

def exceptIsOk : Except PyErr Clicker → Bool :=
  fun e => match e with
  | .ok _ => true
  | .error _ => false

def w3gt : IGrid := ⟨2, 2, fun i j => if i = 0 ∧ j = 0 then 1 else 0⟩

def w3s : Clicker := mkClicker (some w3gt) [] (-1)

def w3g : GtData :=
  ⟨⟨2, 2, fun i j => decide (w3gt.val i j = 1)⟩,
   ⟨2, 2, fun i j => decide (w3gt.val i j ≠ -1)⟩⟩

def w3p : BGrid := ⟨1, 2, fun _ _ => false⟩

set_option maxRecDepth 4000 in
/-- **C3 (counterexample).** A predicted mask of shape `1 × 2` against a
`2 × 2` ground truth — a shape mismatch — does *not* fail: numpy
broadcasting applies inside the mask algebra and `make_next_click`
succeeds, so no shape-mismatch error is raised before (or during) the mask
algebra and the mask is silently broadcast. -/
theorem claim_C3_counterexample :
    w3s.gt = some w3g ∧ w3p.H ≠ w3g.gt_mask.H ∧
    exceptIsOk (make_next_click sqedt w3s w3p) = true :=
  ⟨rfl, by decide, by decide⟩

theorem claim_C3_witness :
    make_next_click sqedt w3s ⟨3, 2, fun _ _ => false⟩ = .error .valueError :=
  claim_C3_amended sqedt w3s w3g ⟨3, 2, fun _ _ => false⟩ rfl (Or.inl (by decide))

/-- **C1.** With a ground-truth mask present and a shape-matching prediction,
`make_next_click` appends exactly one click; the click is positive if and
only if the maximum of the masked false-negative distance map strictly
exceeds the maximum of the masked false-positive distance map (so on
equality — including both maxima `0` — the negative branch is taken), and
its coordinate is the row-major-first pixel (smallest row, then smallest
column) attaining the maximum of the chosen map. -/
theorem claim_C1 (edt : Edt) (hne : EdtNonneg edt) (s : Clicker) (g : GtData)
    (pred_mask : BGrid) (hg : s.gt = some g)
    (hs : ShapeOK g s.not_clicked_map pred_mask)
    (hH : 0 < g.gt_mask.H) (hW : 0 < g.gt_mask.W) :
    ∃ c : Click,
      make_next_click edt s pred_mask = .ok (add_click s c) ∧
      (c.is_positive = true ↔
        gridMax (fp_masked_dt edt g s.not_clicked_map pred_mask) <
          gridMax (fn_masked_dt edt g s.not_clicked_map pred_mask)) ∧
      firstMaxAt
        (if c.is_positive then fn_masked_dt edt g s.not_clicked_map pred_mask
         else fp_masked_dt edt g s.not_clicked_map pred_mask) c.coords := by
  obtain ⟨c, hc, hiff, hmax⟩ :=
    get_click_spec edt hne g s.not_clicked_map pred_mask hs hH hW
  exact ⟨c, by simp only [make_next_click, hg, hc], hiff, hmax⟩

def w1gt : IGrid := ⟨2, 2, fun i j => if i = 0 ∧ j = 0 then 1 else 0⟩

def w1s : Clicker := mkClicker (some w1gt) [] (-1)

def w1g : GtData :=
  ⟨⟨2, 2, fun i j => decide (w1gt.val i j = 1)⟩,
   ⟨2, 2, fun i j => decide (w1gt.val i j ≠ -1)⟩⟩

def w1p : BGrid := ⟨2, 2, fun _ _ => false⟩

theorem claim_C1_witness :
    ∃ c : Click,
      make_next_click sqedt w1s w1p = .ok (add_click w1s c) ∧
      (c.is_positive = true ↔
        gridMax (fp_masked_dt sqedt w1g w1s.not_clicked_map w1p) <
          gridMax (fn_masked_dt sqedt w1g w1s.not_clicked_map w1p)) ∧
      firstMaxAt
        (if c.is_positive then fn_masked_dt sqedt w1g w1s.not_clicked_map w1p
         else fp_masked_dt sqedt w1g w1s.not_clicked_map w1p) c.coords :=
  claim_C1 sqedt sqedt_nonneg w1s w1g w1p rfl ⟨rfl, rfl, rfl, rfl, rfl, rfl⟩ (by decide) (by decide)

/-- **C10.** With a nonempty ground truth and shape-matching prediction, the
argmax set of the chosen masked map is nonempty, so the selection in
`_get_click` succeeds and `make_next_click` returns (appends) a click whose
coordinate lies in `[0,H) × [0,W)`; the empty-selection `IndexError` is
unreachable under these preconditions. -/
theorem claim_C10 (edt : Edt) (hne : EdtNonneg edt) (s : Clicker) (g : GtData)
    (pred_mask : BGrid) (hg : s.gt = some g)
    (hs : ShapeOK g s.not_clicked_map pred_mask)
    (hH : 0 < g.gt_mask.H) (hW : 0 < g.gt_mask.W) :
    ∃ c : Click,
      make_next_click edt s pred_mask = .ok (add_click s c) ∧
      c.coords.1 < g.gt_mask.H ∧ c.coords.2 < g.gt_mask.W := by
  obtain ⟨c, hc, _, hmax⟩ :=
    get_click_spec edt hne g s.not_clicked_map pred_mask hs hH hW
  refine ⟨c, by simp only [make_next_click, hg, hc], ?_, ?_⟩
  · rcases hb : c.is_positive
    · rw [hb, if_neg Bool.false_ne_true] at hmax
      exact hmax.1
    · rw [hb, if_pos rfl] at hmax
      exact hmax.1
  · rcases hb : c.is_positive
    · rw [hb, if_neg Bool.false_ne_true] at hmax
      exact hmax.2.1
    · rw [hb, if_pos rfl] at hmax
      exact hmax.2.1

def w10gt : IGrid := ⟨3, 3, fun i j => if i ≤ 1 ∧ j ≤ 1 then 1 else 0⟩

def w10s : Clicker := mkClicker (some w10gt) [] (-1)

def w10g : GtData :=
  ⟨⟨3, 3, fun i j => decide (w10gt.val i j = 1)⟩,
   ⟨3, 3, fun i j => decide (w10gt.val i j ≠ -1)⟩⟩

def w10p : BGrid := ⟨3, 3, fun _ _ => false⟩

theorem claim_C10_witness :
    ∃ c : Click,
      make_next_click sqedt w10s w10p = .ok (add_click w10s c) ∧
      c.coords.1 < w10g.gt_mask.H ∧ c.coords.2 < w10g.gt_mask.W :=
  claim_C10 sqedt sqedt_nonneg w10s w10g w10p rfl ⟨rfl, rfl, rfl, rfl, rfl, rfl⟩ (by decide) (by decide)

/-- **C7 (amended).** When both masked maxima are exactly `0`, the strict
`>` comparison takes the negative branch and — because every pixel of the
all-zero masked map attains the maximum — `np.where` selects the absolute
row-major-first pixel `(0, 0)`, regardless of whether `(0, 0)` has already
been clicked (the not-yet-clicked restriction claimed by the spec does not
hold; see the counterexample). -/
theorem claim_C7_amended (edt : Edt) (hne : EdtNonneg edt) (s : Clicker) (g : GtData)
    (pred_mask : BGrid) (hg : s.gt = some g)
    (hs : ShapeOK g s.not_clicked_map pred_mask)
    (hH : 0 < g.gt_mask.H) (hW : 0 < g.gt_mask.W)
    (hfn : gridMax (fn_masked_dt edt g s.not_clicked_map pred_mask) = 0)
    (hfp : gridMax (fp_masked_dt edt g s.not_clicked_map pred_mask) = 0) :
    make_next_click edt s pred_mask = .ok (add_click s ⟨false, (0, 0)⟩) := by
  obtain ⟨c, hc, hiff, hmax⟩ :=
    get_click_spec edt hne g s.not_clicked_map pred_mask hs hH hW
  have hb : c.is_positive = false := by
    rcases hbb : c.is_positive
    · rfl
    · refine absurd (hiff.mp hbb) ?_
      rw [hfn, hfp]
      exact lt_irrefl 0
  rw [hb, if_neg Bool.false_ne_true] at hmax
  obtain ⟨h1, h2, h3, h4⟩ := hmax
  have h00 : (fp_masked_dt edt g s.not_clicked_map pred_mask).val 0 0 =
      gridMax (fp_masked_dt edt g s.not_clicked_map pred_mask) := by
    rw [hfp]
    refine le_antisymm ?_ (masked_val_nonneg hne (fp_err_mask g pred_mask)
      s.not_clicked_map 0 0)
    have hle := val_le_gridMax (g := fp_masked_dt edt g s.not_clicked_map pred_mask)
      (i := 0) (j := 0) hH hW
    rw [hfp] at hle
    exact hle
  have hcc : c.coords = (0, 0) := by
    rcases hp : c.coords with ⟨p1, p2⟩
    by_contra hne'
    have hcomp : ¬(p1 = 0 ∧ p2 = 0) := by
      intro hz
      exact hne' (by rw [hz.1, hz.2])
    have hprm : rmLt (0, 0) (p1, p2) := by
      unfold rmLt
      simp only
      omega
    rw [hp] at h4
    exact h4 (0, 0) hH hW hprm h00
  have hcfull : c = ⟨false, (0, 0)⟩ := by
    rcases c with ⟨cb, cc⟩
    dsimp only at hb hcc
    rw [hb, hcc]
  rw [hcfull] at hc
  simp only [make_next_click, hg, hc]

def w7gt : IGrid := ⟨1, 2, fun _ _ => 0⟩

def w7s : Clicker := mkClicker (some w7gt) [⟨false, (0, 0)⟩] (-1)

def w7g : GtData :=
  ⟨⟨1, 2, fun i j => decide (w7gt.val i j = 1)⟩,
   ⟨1, 2, fun i j => decide (w7gt.val i j ≠ -1)⟩⟩

def w7p : BGrid := ⟨1, 2, fun _ _ => false⟩

set_option maxRecDepth 4000 in
/-- **C7 (counterexample).** A `1 × 2` Clicker whose pixel `(0, 0)` is
already clicked, with a prediction that matches the ground truth, has both
masked maxima equal to `0`; the row-major-first *not-yet-clicked* pixel is
`(0, 1)`, yet the simulated click lands on the already-clicked `(0, 0)` —
refuting the claim that the coordinate is chosen among the pixels still
marked not-yet-clicked. -/
theorem claim_C7_counterexample :
    w7s.gt = some w7g ∧
    gridMax (fn_masked_dt sqedt w7g w7s.not_clicked_map w7p) = 0 ∧
    gridMax (fp_masked_dt sqedt w7g w7s.not_clicked_map w7p) = 0 ∧
    w7s.not_clicked_map.val 0 0 = false ∧
    w7s.not_clicked_map.val 0 1 = true ∧
    (match make_next_click sqedt w7s w7p with
     | .ok s' => s'.clicks_list.getLast?
     | .error _ => none) = some ⟨false, (0, 0)⟩ :=
  ⟨rfl, by decide, by decide, by decide, by decide, by decide⟩

set_option maxRecDepth 4000 in
theorem claim_C7_witness :
    make_next_click sqedt w7s w7p = .ok (add_click w7s ⟨false, (0, 0)⟩) :=
  claim_C7_amended sqedt sqedt_nonneg w7s w7g w7p rfl ⟨rfl, rfl, rfl, rfl, rfl, rfl⟩
    (by decide) (by decide) (by decide) (by decide)

/-- **C6 (amended).** `add_click c` followed by `remove_last_click` restores
exactly the prior state, provided the clicked coordinate was not already
marked clicked (or the Clicker has no ground truth, so the map is untouched).
Without that proviso the undo wrongly resets `not_clicked` at a coordinate a
surviving click still occupies (see the counterexample). -/
theorem claim_C6_amended (s : Clicker) (c : Click)
    (h : s.gt = none ∨ s.not_clicked_map.val c.coords.1 c.coords.2 = true) :
    remove_last_click (add_click s c) = .ok s := by
  obtain ⟨gt, map, l, a, b⟩ := s
  rcases c with ⟨cb, cc⟩
  rcases gt with _ | g
  · unfold add_click remove_last_click
    simp only [List.getLast?_concat, List.dropLast_concat]
    rcases cb <;> simp
  · rcases h with h | h
    · exact absurd h (by simp)
    · dsimp only at h
      unfold add_click remove_last_click
      simp only [List.getLast?_concat, List.dropLast_concat]
      have hmap : setPix (setPix map cc false) cc true = map := by
        rcases map with ⟨mH, mW, mv⟩
        unfold setPix
        dsimp only
        simp only [BGrid.mk.injEq, true_and]
        funext i j
        by_cases hij : i = cc.1 ∧ j = cc.2
        · rw [if_pos hij]
          dsimp only at h
          rw [hij.1, hij.2]
          exact h.symm
        · rw [if_neg hij, if_neg hij]
      rw [hmap]
      rcases cb <;> simp

def w6gt : IGrid := ⟨1, 1, fun _ _ => 0⟩

def w6s : Clicker := mkClicker (some w6gt) [⟨true, (0, 0)⟩] (-1)

/-- **C6 (counterexample).** In a state where `(0, 0)` is already clicked,
`add_click ⟨true, (0, 0)⟩` followed by `remove_last_click` does *not* restore
the prior state: `not_clicked[(0, 0)]` was `false` before and is `true`
after, even though a click at `(0, 0)` is still in the list. -/
theorem claim_C6_counterexample :
    w6s.not_clicked_map.val 0 0 = false ∧
    (match remove_last_click (add_click w6s ⟨true, (0, 0)⟩) with
     | .ok s' => s'.not_clicked_map.val 0 0
     | .error _ => false) = true :=
  ⟨by decide, by decide⟩

def w6f : Clicker := mkClicker (some w6gt) [] (-1)

theorem claim_C6_witness :
    remove_last_click (add_click w6f ⟨true, (0, 0)⟩) = .ok w6f :=
  claim_C6_amended w6f ⟨true, (0, 0)⟩ (Or.inr (by decide))

/-! ## Sequences of mutating calls and the click-state invariant -/

/-- One mutating call of the click-history API. -/
inductive COp where
  | add : Click → COp
  | undo : COp
  | reset : COp

/-- Apply one call.  A failing `remove_last_click` (empty history) raises
before mutating anything, so the post-exception state is the input state. -/
def applyOp (s : Clicker) : COp → Clicker
  | .add c => add_click s c
  | .undo =>
    match remove_last_click s with
    | .ok s' => s'
    | .error _ => s
  | .reset => reset_clicks s

def applyOps (s : Clicker) (ops : List COp) : Clicker :=
  ops.foldl applyOp s

/-- The caller contract of the spec: every `add_click` targets an in-bounds,
not-yet-clicked coordinate (checked against the state at the moment of the
call). -/
def ValidOps (s : Clicker) : List COp → Prop
  | [] => True
  | op :: rest =>
    (match op with
     | .add c =>
         c.coords.1 < s.not_clicked_map.H ∧ c.coords.2 < s.not_clicked_map.W ∧
         s.not_clicked_map.val c.coords.1 c.coords.2 = true
     | _ => True) ∧ ValidOps (applyOp s op) rest

/-- The click-state invariant: the counters count the positive/negative
clicks of the list and, when ground truth is present, `not_clicked` has the
ground-truth shape, is `false` at every clicked coordinate and `true` at
every other coordinate, and no two clicks share a coordinate. -/
def InvC (s : Clicker) : Prop :=
  s.num_pos_clicks = s.clicks_list.countP (fun c => c.is_positive) ∧
  s.num_neg_clicks = s.clicks_list.countP (fun c => !c.is_positive) ∧
  match s.gt with
  | none => True
  | some g =>
      s.not_clicked_map.H = g.gt_mask.H ∧ s.not_clicked_map.W = g.gt_mask.W ∧
      (∀ c ∈ s.clicks_list, s.not_clicked_map.val c.coords.1 c.coords.2 = false) ∧
      (∀ p : Nat × Nat, (∀ c ∈ s.clicks_list, c.coords ≠ p) →
        s.not_clicked_map.val p.1 p.2 = true) ∧
      s.clicks_list.Pairwise (fun c d => c.coords ≠ d.coords)

theorem countP_concat (l : List Click) (c : Click) (p : Click → Bool) :
    (l ++ [c]).countP p = l.countP p + (if p c then 1 else 0) := by
  simp [List.countP_append, List.countP_cons]

theorem setPix_val_ne (m : BGrid) (q : Nat × Nat) (bv : Bool) {i j : Nat}
    (h : ¬(i = q.1 ∧ j = q.2)) : (setPix m q bv).val i j = m.val i j := by
  unfold setPix
  dsimp only
  rw [if_neg h]

theorem setPix_val_self (m : BGrid) (q : Nat × Nat) (bv : Bool) :
    (setPix m q bv).val q.1 q.2 = bv := by
  unfold setPix
  dsimp only
  rw [if_pos ⟨rfl, rfl⟩]

theorem invC_add (s : Clicker) (c : Click) (hInv : InvC s)
    (hc : s.not_clicked_map.val c.coords.1 c.coords.2 = true) :
    InvC (add_click s c) := by
  obtain ⟨gt, map, l, a, b⟩ := s
  obtain ⟨h1, h2, h3⟩ := hInv
  dsimp only at h1 h2 h3 hc
  rcases gt with _ | g
  · refine ⟨?_, ?_, trivial⟩
    · dsimp only [add_click]
      rw [countP_concat, h1]
      rcases hcb : c.is_positive <;> simp [hcb]
    · dsimp only [add_click]
      rw [countP_concat, h2]
      rcases hcb : c.is_positive <;> simp [hcb]
  · obtain ⟨hd1, hd2, hclicked, hothers, hpw⟩ := h3
    refine ⟨?_, ?_, ?_, ?_, ?_, ?_, ?_⟩
    · dsimp only [add_click]
      rw [countP_concat, h1]
      rcases hcb : c.is_positive <;> simp [hcb]
    · dsimp only [add_click]
      rw [countP_concat, h2]
      rcases hcb : c.is_positive <;> simp [hcb]
    · exact hd1
    · exact hd2
    · intro d hd
      dsimp only [add_click] at hd ⊢
      rcases List.mem_append.mp hd with hdl | hdc
      · by_cases hij : d.coords.1 = c.coords.1 ∧ d.coords.2 = c.coords.2
        · rw [show d.coords.1 = c.coords.1 from hij.1,
            show d.coords.2 = c.coords.2 from hij.2]
          exact setPix_val_self map c.coords false
        · rw [setPix_val_ne map c.coords false hij]
          exact hclicked d hdl
      · rw [List.mem_singleton.mp hdc]
        exact setPix_val_self map c.coords false
    · intro p hp
      dsimp only [add_click] at hp ⊢
      have hpc : c.coords ≠ p := hp c (List.mem_append.mpr (Or.inr (List.mem_singleton.mpr rfl)))
      have hij : ¬(p.1 = c.coords.1 ∧ p.2 = c.coords.2) := by
        intro hz
        exact hpc (by
          rcases p with ⟨p1, p2⟩
          rcases hcp : c.coords with ⟨q1, q2⟩
          rw [hcp] at hz
          dsimp only at hz
          rw [hz.1, hz.2])
      rw [setPix_val_ne map c.coords false hij]
      refine hothers p ?_
      intro d hd
      exact hp d (List.mem_append.mpr (Or.inl hd))
    · dsimp only [add_click]
      refine List.pairwise_append.mpr ⟨hpw, List.pairwise_singleton _ _, ?_⟩
      intro d hd e he
      rw [List.mem_singleton.mp he]
      intro hde
      have := hclicked d hd
      rw [hde] at this
      rw [this] at hc
      exact Bool.false_ne_true hc

theorem coords_neq_split {p q : Nat × Nat} (h : p ≠ q) :
    ¬(p.1 = q.1 ∧ p.2 = q.2) := by
  intro hz
  refine h ?_
  rcases p with ⟨p1, p2⟩
  rcases q with ⟨q1, q2⟩
  dsimp only at hz
  rw [hz.1, hz.2]

theorem invC_undo (s : Clicker) (hInv : InvC s) :
    InvC (match remove_last_click s with | .ok s' => s' | .error _ => s) := by
  obtain ⟨gt, map, l, a, b⟩ := s
  obtain ⟨h1, h2, h3⟩ := hInv
  dsimp only at h1 h2 h3
  rcases hlast : l.getLast? with _ | c
  · unfold remove_last_click
    dsimp only
    rw [hlast]
    exact ⟨h1, h2, h3⟩
  · obtain ⟨l', rfl⟩ := List.getLast?_eq_some_iff.mp hlast
    rw [countP_concat] at h1 h2
    unfold remove_last_click
    dsimp only
    rw [List.getLast?_concat]
    dsimp only
    rcases gt with _ | g
    · refine ⟨?_, ?_, trivial⟩
      · dsimp only
        rw [List.dropLast_concat]
        rcases hcb : c.is_positive <;> rw [hcb] at h1 <;> simp at h1 ⊢ <;> omega
      · dsimp only
        rw [List.dropLast_concat]
        rcases hcb : c.is_positive <;> rw [hcb] at h2 <;> simp at h2 ⊢ <;> omega
    · obtain ⟨hd1, hd2, hclicked, hothers, hpw⟩ := h3
      have hcross : ∀ d ∈ l', d.coords ≠ c.coords := by
        intro d hd
        exact (List.pairwise_append.mp hpw).2.2 d hd c (List.mem_singleton.mpr rfl)
      refine ⟨?_, ?_, hd1, hd2, ?_, ?_, ?_⟩
      · dsimp only
        rw [List.dropLast_concat]
        rcases hcb : c.is_positive <;> rw [hcb] at h1 <;> simp at h1 ⊢ <;> omega
      · dsimp only
        rw [List.dropLast_concat]
        rcases hcb : c.is_positive <;> rw [hcb] at h2 <;> simp at h2 ⊢ <;> omega
      · dsimp only
        rw [List.dropLast_concat]
        intro d hd
        rw [setPix_val_ne map c.coords true (coords_neq_split (hcross d hd))]
        exact hclicked d (List.mem_append.mpr (Or.inl hd))
      · dsimp only
        rw [List.dropLast_concat]
        intro p hp
        by_cases hpq : p.1 = c.coords.1 ∧ p.2 = c.coords.2
        · rw [hpq.1, hpq.2]
          exact setPix_val_self map c.coords true
        · rw [setPix_val_ne map c.coords true hpq]
          refine hothers p ?_
          intro d hd
          rcases List.mem_append.mp hd with hdl | hdc
          · exact hp d hdl
          · rw [List.mem_singleton.mp hdc]
            intro heq
            refine hpq ?_
            rw [← heq]
            exact ⟨rfl, rfl⟩
      · dsimp only
        rw [List.dropLast_concat]
        exact (List.pairwise_append.mp hpw).1

theorem invC_reset (s : Clicker) (hInv : InvC s) : InvC (reset_clicks s) := by
  obtain ⟨gt, map, l, a, b⟩ := s
  rcases gt with _ | g
  · exact ⟨rfl, rfl, trivial⟩
  · refine ⟨rfl, rfl, rfl, rfl, ?_, ?_, List.Pairwise.nil⟩
    · intro d hd
      exact absurd hd (List.not_mem_nil d)
    · intro p _
      rfl

theorem invC_applyOp (s : Clicker) (op : COp) (hInv : InvC s)
    (hv : match op with
      | .add c => s.not_clicked_map.val c.coords.1 c.coords.2 = true
      | _ => True) :
    InvC (applyOp s op) := by
  rcases op with c | _ | _
  · exact invC_add s c hInv hv
  · exact invC_undo s hInv
  · exact invC_reset s hInv

theorem invC_applyOps (ops : List COp) : ∀ (s : Clicker), InvC s → ValidOps s ops →
    InvC (applyOps s ops) := by
  induction ops with
  | nil => intro s h _; exact h
  | cons op rest ih =>
    intro s h hv
    obtain ⟨hv1, hv2⟩ := hv
    refine ih (applyOp s op) ?_ hv2
    refine invC_applyOp s op h ?_
    rcases op with c | _ | _
    · exact hv1.2.2
    · trivial
    · trivial

theorem invC_mk (gtg : IGrid) (lbl : Int) :
    InvC (mkClicker (some gtg) [] lbl) := by
  refine ⟨rfl, rfl, rfl, rfl, ?_, ?_, List.Pairwise.nil⟩
  · intro d hd
    exact absurd hd (List.not_mem_nil d)
  · intro p _
    rfl

theorem applyOp_gt (s : Clicker) (op : COp) : (applyOp s op).gt = s.gt := by
  obtain ⟨gt, map, l, a, b⟩ := s
  rcases op with c | _ | _
  · rfl
  · dsimp only [applyOp]
    unfold remove_last_click
    dsimp only
    rcases hl : l.getLast? with _ | c <;> rfl
  · rcases gt with _ | g <;> rfl

theorem applyOps_gt (ops : List COp) : ∀ s : Clicker, (applyOps s ops).gt = s.gt := by
  induction ops with
  | nil => intro s; rfl
  | cons op rest ih =>
    intro s
    exact (ih (applyOp s op)).trans (applyOp_gt s op)

/-- **C4 (amended).** Starting from a Clicker constructed with a ground-truth
mask, after any sequence of `add_click` / `remove_last_click` /
`reset_clicks` calls *in which every `add_click` targets an in-bounds,
not-yet-clicked coordinate* (the spec's caller contract), the counters sum
to the click-list length, every clicked coordinate has `not_clicked = false`
and every other coordinate has `not_clicked = true`.  Without the
not-yet-clicked proviso the invariant fails (see the counterexample). -/
theorem claim_C4_amended (gtg : IGrid) (lbl : Int) (ops : List COp) (t : Clicker)
    (hv : ValidOps (mkClicker (some gtg) [] lbl) ops)
    (ht : t = applyOps (mkClicker (some gtg) [] lbl) ops) :
    t.num_pos_clicks + t.num_neg_clicks = t.clicks_list.length ∧
    (∀ c ∈ t.clicks_list, t.not_clicked_map.val c.coords.1 c.coords.2 = false) ∧
    (∀ p : Nat × Nat, (∀ c ∈ t.clicks_list, c.coords ≠ p) →
      t.not_clicked_map.val p.1 p.2 = true) := by
  subst ht
  obtain ⟨h1, h2, h3⟩ :=
    invC_applyOps ops (mkClicker (some gtg) [] lbl) (invC_mk gtg lbl) hv
  have hgt : (applyOps (mkClicker (some gtg) [] lbl) ops).gt =
      some ⟨⟨gtg.H, gtg.W, fun i j => decide (gtg.val i j = 1)⟩,
        ⟨gtg.H, gtg.W, fun i j => decide (gtg.val i j ≠ lbl)⟩⟩ :=
    applyOps_gt ops (mkClicker (some gtg) [] lbl)
  rw [hgt] at h3
  obtain ⟨_, _, hclicked, hothers, _⟩ := h3
  refine ⟨?_, hclicked, hothers⟩
  rw [h1, h2]
  have hh := List.length_eq_countP_add_countP
    (l := (applyOps (mkClicker (some gtg) [] lbl) ops).clicks_list)
    (fun c => c.is_positive)
  have hh2 : (applyOps (mkClicker (some gtg) [] lbl) ops).clicks_list.length =
      (applyOps (mkClicker (some gtg) [] lbl) ops).clicks_list.countP
        (fun c => c.is_positive) +
      (applyOps (mkClicker (some gtg) [] lbl) ops).clicks_list.countP
        (fun c => !c.is_positive) := by
    simpa using hh
  rw [hh2]

def w4gt : IGrid := ⟨1, 2, fun _ _ => 0⟩

def w4s0 : Clicker := mkClicker (some w4gt) [] (-1)

/-- **C4 (counterexample).** The raw call sequence
`add_click ⟨+,(0,0)⟩; add_click ⟨+,(0,0)⟩; remove_last_click` (duplicating a
coordinate, which nothing in the code prevents) leaves a state whose click
list still contains a click at `(0, 0)` while `not_clicked[(0, 0)]` is
`true` — violating the claimed invariant. -/
theorem claim_C4_counterexample :
    (applyOps w4s0 [.add ⟨true, (0, 0)⟩, .add ⟨true, (0, 0)⟩, .undo]).clicks_list =
      [⟨true, (0, 0)⟩] ∧
    (applyOps w4s0 [.add ⟨true, (0, 0)⟩, .add ⟨true, (0, 0)⟩,
      .undo]).not_clicked_map.val 0 0 = true :=
  ⟨by decide, by decide⟩

def w4ops : List COp := [.add ⟨true, (0, 0)⟩, .undo, .add ⟨false, (0, 1)⟩, .reset,
  .add ⟨true, (0, 0)⟩]

def w4t : Clicker := applyOps w4s0 w4ops

theorem claim_C4_witness :
    w4t.num_pos_clicks + w4t.num_neg_clicks = w4t.clicks_list.length ∧
    (∀ c ∈ w4t.clicks_list, w4t.not_clicked_map.val c.coords.1 c.coords.2 = false) ∧
    (∀ p : Nat × Nat, (∀ c ∈ w4t.clicks_list, c.coords ≠ p) →
      w4t.not_clicked_map.val p.1 p.2 = true) :=
  claim_C4_amended w4gt (-1) w4ops w4t
    ⟨by decide, trivial, ⟨by decide, trivial, ⟨by decide, trivial⟩⟩⟩ rfl

/-- The not-clicked map after replaying a click list: every replayed
coordinate set to `false`. -/
def markAll (m : BGrid) (l : List Click) : BGrid :=
  l.foldl (fun mm c => setPix mm c.coords false) m

theorem markAll_H (l : List Click) : ∀ m : BGrid, (markAll m l).H = m.H := by
  induction l with
  | nil => intro m; rfl
  | cons c t ih => intro m; exact ih (setPix m c.coords false)

theorem markAll_W (l : List Click) : ∀ m : BGrid, (markAll m l).W = m.W := by
  induction l with
  | nil => intro m; rfl
  | cons c t ih => intro m; exact ih (setPix m c.coords false)

theorem markAll_val_not (l : List Click) : ∀ (m : BGrid) (i j : Nat),
    (∀ c ∈ l, c.coords ≠ (i, j)) → (markAll m l).val i j = m.val i j := by
  induction l with
  | nil => intro m i j _; rfl
  | cons c t ih =>
    intro m i j h
    have hstep : (markAll (setPix m c.coords false) t).val i j =
        (setPix m c.coords false).val i j :=
      ih (setPix m c.coords false) i j (fun d hd => h d (List.mem_cons_of_mem c hd))
    have hc : ¬(i = c.coords.1 ∧ j = c.coords.2) := by
      have := coords_neq_split (p := (i, j)) (q := c.coords)
        (fun heq => h c (List.mem_cons_self c t) heq.symm)
      exact this
    calc (markAll m (c :: t)).val i j
        = (markAll (setPix m c.coords false) t).val i j := rfl
      _ = (setPix m c.coords false).val i j := hstep
      _ = m.val i j := setPix_val_ne m c.coords false hc

theorem markAll_val_clicked (l : List Click) : ∀ (m : BGrid) (i j : Nat),
    (∃ c ∈ l, c.coords = (i, j)) → (markAll m l).val i j = false := by
  induction l with
  | nil =>
    intro m i j h
    obtain ⟨c, hc, _⟩ := h
    exact absurd hc (List.not_mem_nil c)
  | cons c t ih =>
    intro m i j h
    by_cases hex : ∃ d ∈ t, d.coords = (i, j)
    · exact ih (setPix m c.coords false) i j hex
    · obtain ⟨d, hd, hdc⟩ := h
      have hdceq : d = c ∨ d ∈ t := List.mem_cons.mp hd
      rcases hdceq with rfl | hdt
      · push_neg at hex
        calc (markAll m (d :: t)).val i j
            = (markAll (setPix m d.coords false) t).val i j := rfl
          _ = (setPix m d.coords false).val i j :=
              markAll_val_not t (setPix m d.coords false) i j hex
          _ = false := by rw [hdc]; exact setPix_val_self m (i, j) false
      · exact absurd ⟨d, hdt, hdc⟩ hex

theorem bgrid_eq {x y : BGrid} (hH : x.H = y.H) (hW : x.W = y.W)
    (hv : ∀ i j, x.val i j = y.val i j) : x = y := by
  rcases x with ⟨xH, xW, xv⟩
  rcases y with ⟨yH, yW, yv⟩
  dsimp only at hH hW hv
  subst hH
  subst hW
  simp only [BGrid.mk.injEq, true_and]
  funext i j
  exact hv i j

theorem foldl_add_none (l : List Click) : ∀ (m : BGrid) (l0 : List Click) (a b : Nat),
    l.foldl add_click ⟨none, m, l0, a, b⟩ =
      ⟨none, m, l0 ++ l, a + l.countP (fun c => c.is_positive),
        b + l.countP (fun c => !c.is_positive)⟩ := by
  induction l with
  | nil =>
    intro m l0 a b
    simp [List.countP_nil]
  | cons c t ih =>
    intro m l0 a b
    simp only [List.foldl_cons]
    rw [show add_click ⟨none, m, l0, a, b⟩ c =
      ⟨none, m, l0 ++ [c], if c.is_positive then a + 1 else a,
        if c.is_positive then b else b + 1⟩ from rfl]
    rw [ih]
    simp only [Clicker.mk.injEq, List.append_assoc, List.singleton_append,
      List.countP_cons, true_and]
    refine ⟨?_, ?_⟩ <;> rcases hcb : c.is_positive <;> simp [hcb] <;> omega

theorem foldl_add_some (l : List Click) :
    ∀ (g : GtData) (m : BGrid) (l0 : List Click) (a b : Nat),
    l.foldl add_click ⟨some g, m, l0, a, b⟩ =
      ⟨some g, markAll m l, l0 ++ l, a + l.countP (fun c => c.is_positive),
        b + l.countP (fun c => !c.is_positive)⟩ := by
  induction l with
  | nil =>
    intro g m l0 a b
    simp [List.countP_nil, markAll]
  | cons c t ih =>
    intro g m l0 a b
    simp only [List.foldl_cons]
    rw [show add_click ⟨some g, m, l0, a, b⟩ c =
      ⟨some g, setPix m c.coords false, l0 ++ [c], if c.is_positive then a + 1 else a,
        if c.is_positive then b else b + 1⟩ from rfl]
    rw [ih]
    simp only [Clicker.mk.injEq, List.append_assoc, List.singleton_append,
      List.countP_cons, true_and]
    refine ⟨?_, ?_, ?_⟩
    · rfl
    · rcases hcb : c.is_positive <;> simp [hcb] <;> omega
    · rcases hcb : c.is_positive <;> simp [hcb] <;> omega

/-- **C5 (amended).** `set_state (get_state)` is the identity on every state
satisfying the click-state invariant `InvC` (counters equal the list's
sign-counts and, with ground truth present, `not_clicked` is `false` exactly
at clicked coordinates, which are pairwise distinct).  States reachable
through duplicate-coordinate click histories violate `InvC` and are *not*
restored (see the counterexample). -/
theorem claim_C5_amended (s : Clicker) (hInv : InvC s) :
    set_state s (get_state s) = s := by
  obtain ⟨gt, map, l, a, b⟩ := s
  obtain ⟨h1, h2, h3⟩ := hInv
  dsimp only at h1 h2 h3
  unfold set_state get_state reset_clicks
  dsimp only
  rcases gt with _ | g
  · rw [foldl_add_none]
    simp only [List.nil_append, Nat.zero_add, Clicker.mk.injEq, true_and]
    exact ⟨h1.symm, h2.symm⟩
  · obtain ⟨hd1, hd2, hclicked, hothers, _⟩ := h3
    rw [foldl_add_some]
    simp only [List.nil_append, Nat.zero_add, Clicker.mk.injEq, true_and]
    refine ⟨?_, h1.symm, h2.symm⟩
    refine bgrid_eq ((markAll_H l (onesLike g.gt_mask)).trans hd1.symm)
      ((markAll_W l (onesLike g.gt_mask)).trans hd2.symm) ?_
    intro i j
    by_cases hex : ∃ c ∈ l, c.coords = (i, j)
    · rw [markAll_val_clicked l (onesLike g.gt_mask) i j hex]
      obtain ⟨c, hc, hcoords⟩ := hex
      have := hclicked c hc
      rw [hcoords] at this
      exact this.symm
    · push_neg at hex
      rw [markAll_val_not l (onesLike g.gt_mask) i j hex]
      have : map.val i j = true := by
        refine hothers (i, j) ?_
        exact hex
      rw [this]
      rfl

def w5gt : IGrid := ⟨1, 2, fun _ _ => 0⟩

def w5s0 : Clicker := mkClicker (some w5gt) [] (-1)

def w5bad : Clicker :=
  applyOps w5s0 [.add ⟨true, (0, 0)⟩, .add ⟨true, (0, 0)⟩, .undo]

/-- **C5 (counterexample).** A state reached through the public API
(`add_click` twice at `(0, 0)`, then `remove_last_click`) has
`not_clicked[(0, 0)] = true` although `(0, 0)` is still clicked; replaying
it with `set_state (get_state)` re-derives `not_clicked[(0, 0)] = false`,
so the round trip does *not* leave `not_clicked` identical. -/
theorem claim_C5_counterexample :
    w5bad.not_clicked_map.val 0 0 = true ∧
    (set_state w5bad (get_state w5bad)).not_clicked_map.val 0 0 = false ∧
    (set_state w5bad (get_state w5bad)).clicks_list = w5bad.clicks_list :=
  ⟨by decide, by decide, by decide⟩

def w5v : Clicker := applyOps w5s0 [.add ⟨true, (0, 0)⟩, .add ⟨false, (0, 1)⟩]

theorem claim_C5_witness : set_state w5v (get_state w5v) = w5v :=
  claim_C5_amended w5v
    ⟨by decide, by decide, by decide, by decide,
     by decide,
     by
       intro p hp
       have h0 : (⟨true, (0, 0)⟩ : Click).coords ≠ p := hp _ (by decide)
       have h1 : (⟨false, (0, 1)⟩ : Click).coords ≠ p := hp _ (by decide)
       rcases p with ⟨p1, p2⟩
       have hv0 : ¬(p1 = 0 ∧ p2 = 0) := by
         intro hz
         exact h0 (by rw [hz.1, hz.2])
       have hv1 : ¬(p1 = 0 ∧ p2 = 1) := by
         intro hz
         exact h1 (by rw [hz.1, hz.2])
       show (setPix (setPix (onesLike _) (0, 0) false) (0, 1) false).val p1 p2 = true
       rw [setPix_val_ne _ _ _ (by
         intro hz
         exact hv1 ⟨hz.1, hz.2⟩)]
       rw [setPix_val_ne _ _ _ (by
         intro hz
         exact hv0 ⟨hz.1, hz.2⟩)]
       rfl,
     by decide⟩

/-- Repeated simulated clicking: fold `make_next_click` over a list of
predicted masks, stopping at the first error. -/
def runClicks (edt : Edt) (s : Clicker) : List BGrid → Except PyErr Clicker
  | [] => .ok s
  | p :: ps =>
    match make_next_click edt s p with
    | .error e => .error e
    | .ok s' => runClicks edt s' ps

/-- A run of `make_next_click` calls is *non-degenerate* when at every step
the ground truth is present, the predicted mask matches its (nonempty)
shape, and the selected maximum — the larger of the two masked maxima — is
strictly positive (i.e. some not-yet-clicked error pixel exists). -/
def GoodRun (edt : Edt) : Clicker → List BGrid → Prop
  | _, [] => True
  | s, p :: ps =>
    match s.gt with
    | none => False
    | some g =>
        ShapeOK g s.not_clicked_map p ∧ 0 < g.gt_mask.H ∧ 0 < g.gt_mask.W ∧
        0 < max (gridMax (fn_masked_dt edt g s.not_clicked_map p))
            (gridMax (fp_masked_dt edt g s.not_clicked_map p)) ∧
        ∀ s', make_next_click edt s p = .ok s' → GoodRun edt s' ps

/-- In a non-degenerate step the selected coordinate is a not-yet-clicked
pixel: its masked value equals the selected maximum, which is positive,
while already-clicked pixels have masked value `0`. -/
theorem step_new_coord (edt : Edt) (hne : EdtNonneg edt) (s : Clicker) (g : GtData)
    (p : BGrid) (hg : s.gt = some g) (hs : ShapeOK g s.not_clicked_map p)
    (hH : 0 < g.gt_mask.H) (hW : 0 < g.gt_mask.W)
    (hpos : 0 < max (gridMax (fn_masked_dt edt g s.not_clicked_map p))
        (gridMax (fp_masked_dt edt g s.not_clicked_map p))) :
    ∃ c : Click, make_next_click edt s p = .ok (add_click s c) ∧
      s.not_clicked_map.val c.coords.1 c.coords.2 = true := by
  obtain ⟨c, hc, hiff, hmax⟩ := get_click_spec edt hne g s.not_clicked_map p hs hH hW
  refine ⟨c, by simp only [make_next_click, hg, hc], ?_⟩
  rcases hb : c.is_positive
  · rw [hb, if_neg Bool.false_ne_true] at hmax
    obtain ⟨h1, h2, h3, _⟩ := hmax
    have hnlt : ¬(gridMax (fp_masked_dt edt g s.not_clicked_map p) <
        gridMax (fn_masked_dt edt g s.not_clicked_map p)) := by
      intro hlt
      have := hiff.mpr hlt
      rw [hb] at this
      exact Bool.false_ne_true this
    have hPmax : 0 < gridMax (fp_masked_dt edt g s.not_clicked_map p) := by
      rcases lt_max_iff.mp hpos with hF | hP
      · exact lt_of_lt_of_le hF (le_of_not_lt hnlt)
      · exact hP
    by_contra hfalse
    rw [Bool.not_eq_true] at hfalse
    have hzero : (fp_masked_dt edt g s.not_clicked_map p).val c.coords.1 c.coords.2 = 0 := by
      dsimp only [fp_masked_dt]
      rw [hfalse, if_neg Bool.false_ne_true]
    rw [h3] at hzero
    exact absurd hzero (ne_of_gt hPmax)
  · rw [hb, if_pos rfl] at hmax
    obtain ⟨h1, h2, h3, _⟩ := hmax
    have hlt := hiff.mp hb
    have hFmax : 0 < gridMax (fn_masked_dt edt g s.not_clicked_map p) := by
      rcases lt_max_iff.mp hpos with hF | hP
      · exact hF
      · exact lt_trans hP hlt
    by_contra hfalse
    rw [Bool.not_eq_true] at hfalse
    have hzero : (fn_masked_dt edt g s.not_clicked_map p).val c.coords.1 c.coords.2 = 0 := by
      dsimp only [fn_masked_dt]
      rw [hfalse, if_neg Bool.false_ne_true]
    rw [h3] at hzero
    exact absurd hzero (ne_of_gt hFmax)

theorem runClicks_distinct (edt : Edt) (hne : EdtNonneg edt) (ps : List BGrid) :
    ∀ (s : Clicker) (g : GtData), s.gt = some g → GoodRun edt s ps →
    (∀ c ∈ s.clicks_list, s.not_clicked_map.val c.coords.1 c.coords.2 = false) →
    s.clicks_list.Pairwise (fun c d => c.coords ≠ d.coords) →
    ∀ s', runClicks edt s ps = .ok s' →
      s'.clicks_list.Pairwise (fun c d => c.coords ≠ d.coords) := by
  induction ps with
  | nil =>
    intro s g hg hgood hinv hpw s' hrun
    simp only [runClicks, Except.ok.injEq] at hrun
    rw [← hrun]
    exact hpw
  | cons p ps ih =>
    intro s g hg hgood hinv hpw s' hrun
    rw [show GoodRun edt s (p :: ps) = match s.gt with
      | none => False
      | some g =>
          ShapeOK g s.not_clicked_map p ∧ 0 < g.gt_mask.H ∧ 0 < g.gt_mask.W ∧
          0 < max (gridMax (fn_masked_dt edt g s.not_clicked_map p))
              (gridMax (fp_masked_dt edt g s.not_clicked_map p)) ∧
          ∀ s', make_next_click edt s p = .ok s' → GoodRun edt s' ps from rfl,
      hg] at hgood
    obtain ⟨hs, hH, hW, hpos, hnext⟩ := hgood
    obtain ⟨c, hstep, hnew⟩ := step_new_coord edt hne s g p hg hs hH hW hpos
    rw [show runClicks edt s (p :: ps) = (match make_next_click edt s p with
      | .error e => .error e
      | .ok s' => runClicks edt s' ps) from rfl, hstep] at hrun
    refine ih (add_click s c) g hg (hnext _ hstep) ?_ ?_ s' hrun
    · intro d hd
      obtain ⟨gt, map, l, a, b⟩ := s
      rcases hgt : gt with _ | g2
      · rw [hgt] at hg
        exact absurd hg (by simp)
      · subst hgt
        dsimp only [add_click] at hd ⊢
        rcases List.mem_append.mp hd with hdl | hdc
        · by_cases hij : d.coords.1 = c.coords.1 ∧ d.coords.2 = c.coords.2
          · rw [show d.coords.1 = c.coords.1 from hij.1,
              show d.coords.2 = c.coords.2 from hij.2]
            exact setPix_val_self map c.coords false
          · rw [setPix_val_ne map c.coords false hij]
            exact hinv d hdl
        · rw [List.mem_singleton.mp hdc]
          exact setPix_val_self map c.coords false
    · obtain ⟨gt, map, l, a, b⟩ := s
      rcases hgt : gt with _ | g2
      · rw [hgt] at hg
        exact absurd hg (by simp)
      · subst hgt
        dsimp only [add_click] at hinv hnew hpw ⊢
        refine List.pairwise_append.mpr ⟨hpw, List.pairwise_singleton _ _, ?_⟩
        intro d hd e he
        rw [List.mem_singleton.mp he]
        intro hde
        have := hinv d hd
        rw [hde] at this
        rw [this] at hnew
        exact Bool.false_ne_true hnew

/-- **C2 (amended).** Starting from a Clicker freshly constructed with a
ground-truth mask, sequences of simulated clicks never repeat a coordinate *as
long as every step is non-degenerate* (its selected maximum is strictly
positive, i.e. an unclicked error pixel exists).  In the degenerate
both-maxima-zero case a coordinate can repeat (see the counterexample). -/
theorem claim_C2_amended (edt : Edt) (hne : EdtNonneg edt) (gtg : IGrid) (lbl : Int)
    (ps : List BGrid) (s' : Clicker)
    (hgood : GoodRun edt (mkClicker (some gtg) [] lbl) ps)
    (hrun : runClicks edt (mkClicker (some gtg) [] lbl) ps = .ok s') :
    s'.clicks_list.Pairwise (fun c d => c.coords ≠ d.coords) := by
  refine runClicks_distinct edt hne ps (mkClicker (some gtg) [] lbl)
    ⟨⟨gtg.H, gtg.W, fun i j => decide (gtg.val i j = 1)⟩,
     ⟨gtg.H, gtg.W, fun i j => decide (gtg.val i j ≠ lbl)⟩⟩ rfl hgood ?_ ?_ s' hrun
  · intro d hd
    exact absurd hd (List.not_mem_nil d)
  · exact List.Pairwise.nil

def w2gt : IGrid := ⟨1, 1, fun _ _ => 0⟩

def w2s0 : Clicker := mkClicker (some w2gt) [] (-1)

def w2p : BGrid := ⟨1, 1, fun _ _ => false⟩

set_option maxRecDepth 8000 in
/-- **C2 (counterexample).** On a `1 × 1` all-background ground truth with a
prediction that already matches, both masked maxima are `0` at every step,
so two consecutive `make_next_click` calls both select `(0, 0)`: the click
list ends with two clicks at the same coordinate. -/
theorem claim_C2_counterexample :
    (match runClicks sqedt w2s0 [w2p, w2p] with
     | .ok s => s.clicks_list
     | .error _ => []) = [⟨false, (0, 0)⟩, ⟨false, (0, 0)⟩] ∧
    ¬(([⟨false, (0, 0)⟩, ⟨false, (0, 0)⟩] : List Click).Pairwise
      (fun c d => c.coords ≠ d.coords)) :=
  ⟨by decide, by decide⟩

def w2vgt : IGrid := ⟨1, 1, fun _ _ => 1⟩

def w2vs0 : Clicker := mkClicker (some w2vgt) [] (-1)

def w2vp : BGrid := ⟨1, 1, fun _ _ => false⟩

set_option maxRecDepth 8000 in
theorem claim_C2_witness :
    ∃ s', runClicks sqedt w2vs0 [w2vp] = .ok s' ∧
      s'.clicks_list.Pairwise (fun c d => c.coords ≠ d.coords) := by
  have hrun : runClicks sqedt w2vs0 [w2vp] = .ok (add_click w2vs0 ⟨true, (0, 0)⟩) := by
    rfl
  refine ⟨_, hrun, claim_C2_amended sqedt sqedt_nonneg w2vgt (-1) [w2vp] _ ?_ hrun⟩
  refine ⟨⟨rfl, rfl, rfl, rfl, rfl, rfl⟩, by decide, by decide, by decide, ?_⟩
  intro s' _
  trivial
